import Mathlib

set_option maxRecDepth 20000
set_option maxHeartbeats 1000000

/-!
Shallow embedding of `vqe-estimator/qiskit/vqe_benchmark.py`.

Circuits are modelled as lists of instructions; qiskit `SparsePauliOp`
values are modelled as ordered lists of (Pauli label, coefficient) terms,
with real coefficients modelled as rationals.
-/

namespace VQEBench

/-- A term of a `SparsePauliOp`: a Pauli label together with its coefficient. -/
abbrev PauliTerm := String × ℚ

/-- Model of a qiskit `SparsePauliOp`: its ordered list of terms. -/
abbrev SPOp := List PauliTerm

/-- Circuit instructions appended by the benchmark code.  `pauliEvo` models a
`PauliEvolutionGate(op, synthesis=LieTrotter())` (evolution time and the name of
the synthesis method are recorded); `sub` models appending a sub-circuit
(name, qubit count, body, target qubits) as a single instruction. -/
inductive Instr : Type where
  | x (q : ℤ)
  | h (q : ℤ)
  | sdg (q : ℤ)
  | measure (q : ℤ) (c : ℤ)
  | barrier
  | pauliEvo (op : SPOp) (time : ℚ) (synthesis : String)
  | sub (name : String) (numQubits : ℕ) (gates : List Instr) (qubits : List ℤ)

/-- Model of a qiskit `QuantumCircuit`: qubit count, name and instruction list. -/
structure Circuit where
  num_qubits : ℕ
  name : String
  gates : List Instr

/-- `HartreeFock(norb, na, nb)`: an X gate on each of qubits `0 .. na-1`
(alpha electrons) followed by an X gate on each of qubits
`norb/2 .. norb/2 + nb - 1` (beta electrons). -/
def HartreeFock (norb na nb : ℕ) : Circuit :=
  { num_qubits := norb
    name := "Hf"
    gates :=
      (List.range na).map (fun (ia : ℕ) => Instr.x (ia : ℤ)) ++
      (List.range nb).map (fun (ib : ℕ) => Instr.x (ib + (norb / 2 : ℕ) : ℤ)) }

/-- Number of qubits of a `SparsePauliOp`: the length of its Pauli labels. -/
def opNumQubits (op : SPOp) : ℕ :=
  match op with
  | [] => 0
  | (s, _) :: _ => s.length

/-- Python rendering of a tuple of naturals, e.g. `(0, 1)`. -/
def tupleStr (l : List ℕ) : String :=
  "(" ++ String.intercalate ", " (l.map toString) ++ ")"

/-- `ClusterOperatorCircuit(pauli_op, excitationIndex)`: a circuit holding a
single `PauliEvolutionGate(pauli_op, synthesis=LieTrotter())` (evolution time 1,
i.e. exp(-i P) with a first-order Trotter step). -/
def ClusterOperatorCircuit (pauli_op : SPOp) (excitationIndex : List ℕ) : Circuit :=
  { num_qubits := opNumQubits pauli_op
    name := "Cluster Op " ++ tupleStr excitationIndex
    gates := [Instr.pauliEvo pauli_op 1 "LieTrotter"] }

/-- The excitation list formed in `VQEEnergy`: alpha singles, beta singles,
then alpha-beta doubles, in loop order. -/
def excitationList (n_spin_orbs na nb : ℕ) : List (List ℕ) :=
  let norb_a := n_spin_orbs / 2
  ((List.range na).flatMap fun occ_a =>
     (List.range' na (norb_a - na)).map fun vir_a => [occ_a, vir_a]) ++
  ((List.range' norb_a nb).flatMap fun occ_b =>
     (List.range' (norb_a + nb) (n_spin_orbs - (norb_a + nb))).map fun vir_b =>
       [occ_b, vir_b]) ++
  ((List.range na).flatMap fun occ_a =>
     (List.range' na (norb_a - na)).flatMap fun vir_a =>
       (List.range' norb_a nb).flatMap fun occ_b =>
         (List.range' (norb_a + nb) (n_spin_orbs - (norb_a + nb))).map fun vir_b =>
           [occ_a, vir_a, occ_b, vir_b])

/-- The loop of `readPauliExcitation`: state is the accumulated group list
`pauli_list`, the coefficient `cur_coeff` of the first entry of the current
group, and the current group `cur_list`. -/
def rpeLoop : List PauliTerm → List SPOp → ℚ → List PauliTerm →
    List SPOp × ℚ × List PauliTerm
  | [], pauli_list, cur_coeff, cur_list => (pauli_list, cur_coeff, cur_list)
  | ext :: rest, pauli_list, cur_coeff, cur_list =>
    if 10000 < cur_coeff then
      rpeLoop rest pauli_list ext.2 [ext]
    else if 1 / 10000 < abs (abs ext.2 - abs cur_coeff) then
      rpeLoop rest (pauli_list ++ [cur_list]) ext.2 [ext]
    else
      rpeLoop rest pauli_list cur_coeff (cur_list ++ [ext])

/-- `readPauliExcitation`, applied to the ansatz dictionary read from file
(modelled as its list of entries in file order): groups consecutive entries by
coefficient magnitude, starting from `cur_coeff = 1e5`, and appends the final
group at the end. -/
def readPauliExcitation (ansatz_dict : List PauliTerm) : List SPOp :=
  let r := rpeLoop ansatz_dict [] 100000 []
  r.1 ++ [r.2.2]

/-- `ReadHamiltonian`, applied to the Hamiltonian dictionary read from file
(modelled as its entry list in file order): builds the term list of the
`SparsePauliOp` one entry at a time. -/
def ReadHamiltonian (ham_dict : List PauliTerm) : SPOp :=
  ham_dict.foldl (fun pauli_list p => pauli_list ++ [(p.1, p.2)]) []

/-- The observable part of the pub returned by `VQEEnergy`: method 1 returns
the single `SparsePauliOp` `qubit_op[1]`, method 2 returns the Python list
`list(qubit_op[1:])` of single-term operators. -/
inductive Obs : Type where
  | single (op : SPOp)
  | many (ops : List SPOp)
  deriving DecidableEq

/-- The observable selection of `VQEEnergy`: for method 1 the term at index 1
of the Hamiltonian (`none` when fewer than two terms exist, modelling the
IndexError); otherwise the list of all terms of `qubit_op[1:]`. -/
def VQEObs (ham_dict : List PauliTerm) (method : ℕ) : Option Obs :=
  let qubit_op := ReadHamiltonian ham_dict
  if method = 1 then
    (qubit_op.get? 1).map (fun t => Obs.single [t])
  else
    some (Obs.many ((qubit_op.drop 1).map (fun t => [t])))

/-- The ansatz circuit built by `VQEEnergy`: the Hartree-Fock circuit is
appended first over the whole register, then one cluster-operator circuit per
grouped Pauli operator, in the order produced by `readPauliExcitation`.
Returns `none` when the group list is longer than the excitation list
(the Python code would raise an IndexError on `excitationList[index]`). -/
def VQEEnergyCircuit (n_spin_orbs na nb circuit_id method : ℕ)
    (ansatz_dict : List PauliTerm) : Option Circuit :=
  let num_qubits := n_spin_orbs
  let Hf := HartreeFock num_qubits na nb
  let exList := excitationList n_spin_orbs na nb
  let pauli_list := readPauliExcitation ansatz_dict
  if pauli_list.length ≤ exList.length then
    some { num_qubits := num_qubits
           name := "vqe-ansatz(" ++ toString method ++ ") " ++ toString num_qubits
             ++ " " ++ toString circuit_id
           gates := pauli_list.enum.foldl
             (fun gs ip =>
               let cluster_qc := ClusterOperatorCircuit ip.2 (exList.getD ip.1 [])
               gs ++ [Instr.sub cluster_qc.name cluster_qc.num_qubits cluster_qc.gates
                 ((List.range cluster_qc.num_qubits).map (fun (i : ℕ) => (i : ℤ)))])
             [Instr.sub Hf.name Hf.num_qubits Hf.gates
               ((List.range num_qubits).map (fun (i : ℕ) => (i : ℤ)))] }
  else none

/-- Program state inside `ExpectationCircuit`: the caller's circuit variable
`qc` and the local copy `raw_qc`, plus the `is_diag` flag.  Keeping the two
circuit variables as separate slots makes the copy-then-mutate discipline of
the Python code explicit. -/
structure ECState where
  qcVar : Circuit
  rawVar : Circuit
  is_diag : Bool

/-- One iteration of the basis-rotation loop of `ExpectationCircuit`, on the
enumerated character `(i, p)` of the Pauli string: H on `nqubit - i - 1` for
`X`, Sdg then H for `Y`, nothing otherwise; the flag is cleared for X and Y. -/
def basisRotationStep (nqubit : ℕ) (st : ECState) (ip : ℕ × Char) : ECState :=
  let target : ℤ := (nqubit : ℤ) - ip.1 - 1
  if ip.2 = 'X' then
    { st with is_diag := false
              rawVar := { st.rawVar with gates := st.rawVar.gates ++ [Instr.h target] } }
  else if ip.2 = 'Y' then
    { st with is_diag := false
              rawVar := { st.rawVar with gates :=
                st.rawVar.gates ++ [Instr.sdg target, Instr.h target] } }
  else st

/-- Instructions added by qiskit `measure_all()` on an `n`-qubit circuit:
a barrier, then a measurement of every qubit. -/
def measureAllGates (n : ℕ) : List Instr :=
  Instr.barrier :: (List.range n).map (fun (i : ℕ) => Instr.measure (i : ℤ) (i : ℤ))

/-- Rendering of a coefficient in a circuit name. -/
def ratStr (q : ℚ) : String := toString q

/-- `ExpectationCircuit(qc, pauli, nqubit)`: copies `qc` into `raw_qc`, applies
the per-character basis rotations to `raw_qc`, measures all qubits, renames
`raw_qc`, and returns (final value of the variable `qc`, `raw_qc`, `is_diag`). -/
def ExpectationCircuit (qc : Circuit) (pauli : PauliTerm) (nqubit : ℕ) :
    Circuit × Circuit × Bool :=
  let st0 : ECState := { qcVar := qc, rawVar := qc, is_diag := true }
  let PauliString := pauli.1
  let coeff := pauli.2
  let st1 := (PauliString.toList.enum).foldl (basisRotationStep nqubit) st0
  let raw2 : Circuit :=
    { st1.rawVar with gates := st1.rawVar.gates ++ measureAllGates st1.rawVar.num_qubits }
  let raw3 : Circuit := { raw2 with name := PauliString ++ " " ++ ratStr coeff }
  (st1.qcVar, raw3, st1.is_diag)

/-- The rotation instructions demanded by the spec for the enumerated character
`(i, c)` of the Pauli string (used to state the claim about
`ExpectationCircuit`). -/
def rotFor (nqubit : ℕ) (i : ℕ) (c : Char) : List Instr :=
  if c = 'X' then [Instr.h ((nqubit : ℤ) - i - 1)]
  else if c = 'Y' then
    [Instr.sdg ((nqubit : ℤ) - i - 1), Instr.h ((nqubit : ℤ) - i - 1)]
  else []

/-- A reference entry of the precalculated data: exact, min and max values. -/
structure RefEntry where
  exactVal : ℚ
  minVal : ℚ
  maxVal : ℚ

/-- The structured content of the `"method1"` metadata string
`str(op.paulis[0]) + " " + str(coeff) + " " + str(circuit_id)`. -/
structure M1Data where
  pauli : String
  coeff : ℚ
  circuit_id : ℕ

/-- The circuit metadata dictionary, restricted to the two keys the analysis
code inspects. -/
structure QCMetadata where
  method1 : Option M1Data
  method2 : Option SPOp

/-- The method-2 accumulation loop of `analyze_and_print_result`: folds the
per-term fidelities over `zip(expval, qubit_op.to_list())`, starting from 0.
`arf` stands for `metrics.accuracy_ratio_fidelity`. -/
def analyzeMethod2Loop (arf : ℚ → ℚ → ℚ → ℚ → ℚ) (references : String → RefEntry)
    (expval : List ℚ) (qubit_op : SPOp) : ℚ :=
  (List.zip expval qubit_op).foldl
    (fun total vp =>
      let ref := references vp.2.1
      total + arf vp.1 ref.exactVal ref.minVal ref.maxVal)
    0

/-- Modelled from the spec: `metrics.accuracy_ratio_fidelity` lives in the
repository's `_common/metrics.py`, which is outside `src/`; the spec treats it
as an opaque scoring function, so it is passed in as the uninterpreted
parameters `arf1` (applied to the raw expectation-value array, method 1) and
`arf` (applied to one scalar expectation value, method 2).

`analyze_and_print_result`: picks the scoring path from the metadata keys
(`"method1"` first, then `"method2"`), and raises a RuntimeError - modelled as
`Except.error` - when neither key is present.  Method 1 scores the expectation
values against the reference entry keyed by qubit count and circuit id; method
2 averages the per-term fidelities over the number of terms of the stored
qubit operator. -/
def analyze_and_print_result (arf1 : List ℚ → ℚ → ℚ → ℚ → ℚ)
    (arf : ℚ → ℚ → ℚ → ℚ → ℚ) (references : String → RefEntry)
    (md : QCMetadata) (num_qubits : ℕ) (expval : List ℚ) : Except String ℚ :=
  match md.method1 with
  | some m1 =>
      let ref := references
        ("Qubits - " ++ toString num_qubits ++ " - " ++ toString m1.circuit_id)
      Except.ok (arf1 expval ref.exactVal ref.minVal ref.maxVal)
  | none =>
      match md.method2 with
      | some qubit_op =>
          Except.ok
            (analyzeMethod2Loop arf references expval qubit_op / (qubit_op.length : ℚ))
      | none => Except.error "Either method 1 or 2 should be chosen"

/-- A call to `metrics.store_metric(group, circuit, metric, value)`. -/
structure StoreCall where
  group : ℕ
  circuit : String
  metric : String
  value : ℚ

/-- `execution_handler`: selects the precalculated reference file by qubit
count and method (`refFile num_qubits 1` or `refFile num_qubits 2`), scores the
result with `analyze_and_print_result`, and stores the fidelity keyed by the
qubit count, under the circuit id for method 1 and under `"method2"` for
method 2. -/
def execution_handler (arf1 : List ℚ → ℚ → ℚ → ℚ → ℚ)
    (arf : ℚ → ℚ → ℚ → ℚ → ℚ) (refFile : ℕ → ℕ → String → RefEntry)
    (md : QCMetadata) (num_qubits : ℕ) (expval : List ℚ) :
    Except String StoreCall :=
  match md.method1, md.method2 with
  | some m1, _ =>
      (analyze_and_print_result arf1 arf (refFile num_qubits 1) md num_qubits expval).map
        (fun fidelity => ⟨num_qubits, toString m1.circuit_id, "fidelity", fidelity⟩)
  | none, some _ =>
      (analyze_and_print_result arf1 arf (refFile num_qubits 2) md num_qubits expval).map
        (fun fidelity => ⟨num_qubits, "method2", "fidelity", fidelity⟩)
  | none, none => Except.error "Either method 1 or 2 should be chosen"

/-- `MAX_QUBITS` of the benchmark loop. -/
def MAX_QUBITS : ℤ := 12

/-- The parameter validation at the top of `run`: returns the validated
`(min_qubits, max_qubits, skip_qubits)`, or `none` when the run aborts early
because `max_qubits < 4`. -/
def runValidate (min_qubits max_qubits skip_qubits : ℤ) : Option (ℤ × ℤ × ℤ) :=
  let max_qubits1 := max max_qubits min_qubits
  let max_qubits2 := min max_qubits1 MAX_QUBITS
  let min_qubits1 := min (max 4 min_qubits) max_qubits2
  let min_qubits2 := if min_qubits1 % 2 = 1 then min_qubits1 + 1 else min_qubits1
  let skip_qubits1 := max 1 skip_qubits
  if max_qubits2 < 4 then none
  else some (min_qubits2, max_qubits2, skip_qubits1)

/-- The qubit sizes visited by the benchmark loop
`range(min_qubits, max_qubits + 1, 2)`. -/
def benchSizes (m M : ℤ) : List ℤ :=
  (List.range (((M + 1 - m).toNat + 1) / 2)).map (fun (k : ℕ) => m + 2 * (k : ℤ))

/-- A group produced by `readPauliExcitation` is nonempty and every entry's
coefficient magnitude is within `1e-4` of the magnitude of the group's first
coefficient. -/
def GroupOk : List PauliTerm → Prop
  | [] => False
  | f :: t => ∀ e ∈ t, abs (abs e.2 - abs f.2) ≤ 1 / 10000

/-- Two adjacent groups have first coefficients whose magnitudes differ by
more than `1e-4` (stated via `head?` so it is meaningful for any lists). -/
def Far (g g' : List PauliTerm) : Prop :=
  ∀ f ∈ g.head?, ∀ f' ∈ g'.head?, 1 / 10000 < abs (abs f'.2 - abs f.2)


/-! ## Helper lemmas -/

theorem foldl_append_singleton {α β : Type} (f : α → β) :
    ∀ (l : List α) (init : List β),
      l.foldl (fun gs a => gs ++ [f a]) init = init ++ l.map f
  | [], init => by simp
  | a :: l, init => by
    simp only [List.foldl_cons, List.map_cons]
    rw [foldl_append_singleton f l (init ++ [f a])]
    simp

theorem foldl_add_map {α : Type} (f : α → ℚ) :
    ∀ (l : List α) (c : ℚ), l.foldl (fun t a => t + f a) c = c + (l.map f).sum
  | [], c => by simp
  | a :: l, c => by
    simp only [List.foldl_cons, List.map_cons, List.sum_cons]
    rw [foldl_add_map f l (c + f a)]
    ring

theorem flatten_map_singleton {α : Type} :
    ∀ (l : List α), (l.map fun a => [a]).flatten = l
  | [] => rfl
  | a :: l => by simp [flatten_map_singleton l]

theorem rpeLoop_spec (rest : List PauliTerm) :
    ∀ (acc : List SPOp) (f : PauliTerm) (t : List PauliTerm),
      f.2 ≤ 10000 →
      (∀ e ∈ rest, e.2 ≤ 10000) →
      (∀ e ∈ t, abs (abs e.2 - abs f.2) ≤ 1 / 10000) →
      (∀ g ∈ acc, GroupOk g) →
      List.Chain' Far (acc ++ [f :: t]) →
      ((rpeLoop rest acc f.2 (f :: t)).1 ++ [(rpeLoop rest acc f.2 (f :: t)).2.2]).flatten
          = acc.flatten ++ (f :: t) ++ rest ∧
      (∀ g ∈ (rpeLoop rest acc f.2 (f :: t)).1 ++ [(rpeLoop rest acc f.2 (f :: t)).2.2],
          GroupOk g) ∧
      List.Chain' Far
        ((rpeLoop rest acc f.2 (f :: t)).1 ++ [(rpeLoop rest acc f.2 (f :: t)).2.2]) := by
  induction rest with
  | nil =>
    intro acc f t hf _ ht hacc hchain
    simp only [rpeLoop]
    refine ⟨by simp, ?_, hchain⟩
    intro g hg
    rcases List.mem_append.1 hg with hg | hg
    · exact hacc g hg
    · simp only [List.mem_singleton] at hg
      subst hg
      exact ht
  | cons e rest ih =>
    intro acc f t hf hrest ht hacc hchain
    have hnotbig : ¬ (10000 < f.2) := not_lt.2 hf
    rw [rpeLoop, if_neg hnotbig]
    by_cases hfar : 1 / 10000 < abs (abs e.2 - abs f.2)
    · rw [if_pos hfar]
      have hres := ih (acc ++ [f :: t]) e []
        (hrest e (List.mem_cons_self e rest))
        (fun x hx => hrest x (List.mem_cons_of_mem e hx))
        (by intro x hx; simp at hx)
        (by
          intro g hg
          rcases List.mem_append.1 hg with hg | hg
          · exact hacc g hg
          · simp only [List.mem_singleton] at hg
            subst hg
            exact ht)
        (by
          rw [List.chain'_append]
          refine ⟨hchain, List.chain'_singleton _, ?_⟩
          intro x hx y hy
          rw [List.getLast?_concat] at hx
          simp only [Option.mem_def, Option.some.injEq, List.head?_cons] at hx hy
          subst hx
          subst hy
          intro p hp p' hp'
          simp only [List.head?_cons, Option.mem_def, Option.some.injEq] at hp hp'
          subst hp
          subst hp'
          exact hfar)
      refine ⟨?_, hres.2.1, hres.2.2⟩
      rw [hres.1]
      simp
    · rw [if_neg hfar]
      have hcons : (f :: t) ++ [e] = f :: (t ++ [e]) := by simp
      rw [hcons]
      have hres := ih acc f (t ++ [e]) hf
        (fun x hx => hrest x (List.mem_cons_of_mem e hx))
        (by
          intro x hx
          rcases List.mem_append.1 hx with hx | hx
          · exact ht x hx
          · simp only [List.mem_singleton] at hx
            subst hx
            exact not_lt.1 hfar)
        hacc
        (by
          rw [List.chain'_append] at hchain ⊢
          refine ⟨hchain.1, List.chain'_singleton _, ?_⟩
          intro x hx y hy
          simp only [List.head?_cons, Option.mem_def, Option.some.injEq] at hy
          subst hy
          intro p hp p' hp'
          simp only [List.head?_cons, Option.mem_def, Option.some.injEq] at hp'
          subst hp'
          exact hchain.2.2 x hx (f :: t) (by simp) p hp f (by simp))
      refine ⟨?_, hres.2.1, hres.2.2⟩
      rw [hres.1]
      simp

/-- C1 (amended): for every nonempty ansatz dictionary whose coefficients are
all at most 1e4, `readPauliExcitation` partitions the entries, in file order,
into contiguous groups: concatenating the groups gives back the entry list,
inside a group every coefficient magnitude is within 1e-4 of the magnitude of
the group's first coefficient, and the first coefficients of adjacent groups
have magnitudes more than 1e-4 apart - i.e. a new group starts exactly when
the magnitude difference against the first coefficient of the current group
exceeds 1e-4. -/
theorem readPauliExcitation_grouping (ansatz : List PauliTerm)
    (hne : ansatz ≠ []) (hb : ∀ e ∈ ansatz, e.2 ≤ 10000) :
    (readPauliExcitation ansatz).flatten = ansatz ∧
    (∀ g ∈ readPauliExcitation ansatz, GroupOk g) ∧
    List.Chain' Far (readPauliExcitation ansatz) := by
  obtain ⟨a, rest, rfl⟩ := List.exists_cons_of_ne_nil hne
  have hstep : readPauliExcitation (a :: rest)
      = (rpeLoop rest [] a.2 [a]).1 ++ [(rpeLoop rest [] a.2 [a]).2.2] := by
    rw [readPauliExcitation, rpeLoop, if_pos (by norm_num)]
  have hres := rpeLoop_spec rest [] a []
    (hb a (List.mem_cons_self a rest))
    (fun x hx => hb x (List.mem_cons_of_mem a hx))
    (by intro x hx; simp at hx)
    (by intro g hg; simp at hg)
    (by simp)
  rw [hstep]
  refine ⟨?_, hres.2.1, hres.2.2⟩
  rw [hres.1]
  simp

/-- C1 witness: a concrete two-entry dictionary with small coefficients is
split into two groups whose concatenation is the input. -/
theorem readPauliExcitation_grouping_witness :
    ([("X", (3 : ℚ)), ("Z", 3)] : List PauliTerm) ≠ [] ∧
    (∀ e ∈ ([("X", (3 : ℚ)), ("Z", 3)] : List PauliTerm), e.2 ≤ 10000) ∧
    ((readPauliExcitation [("X", (3 : ℚ)), ("Z", 3)]).flatten
        = [("X", (3 : ℚ)), ("Z", 3)] ∧
      (∀ g ∈ readPauliExcitation [("X", (3 : ℚ)), ("Z", 3)], GroupOk g) ∧
      List.Chain' Far (readPauliExcitation [("X", (3 : ℚ)), ("Z", 3)])) :=
  ⟨by decide, by decide,
    readPauliExcitation_grouping [("X", (3 : ℚ)), ("Z", 3)] (by decide) (by decide)⟩

/-- C1 counterexample: when a coefficient exceeds 1e4 the group it starts is
silently dropped, so the concatenation of the produced groups is not the entry
list - the entry `("X", 20000)` appears in no group. -/
theorem readPauliExcitation_counterexample :
    (readPauliExcitation [("X", (20000 : ℚ)), ("Z", 1)]).flatten
      ≠ [("X", (20000 : ℚ)), ("Z", 1)] := by decide

theorem ReadHamiltonian_eq (ham_dict : List PauliTerm) :
    ReadHamiltonian ham_dict = ham_dict := by
  rw [ReadHamiltonian, foldl_append_singleton (fun p : PauliTerm => (p.1, p.2))]
  simp

/-- C2 (amended): method 1 pairs the circuit with the single Hamiltonian term
at index 1 (one term of the Hamiltonian read for that qubit count, requiring at
least two terms), while method 2 pairs it with the list of all terms of that
Hamiltonian except the first (identity) term, which `VQEEnergy` drops. -/
theorem VQEEnergy_observables (ham_dict : List PauliTerm)
    (h2 : 2 ≤ ham_dict.length) :
    (∃ t, ham_dict.get? 1 = some t ∧ t ∈ ham_dict ∧
      VQEObs ham_dict 1 = some (Obs.single [t])) ∧
    (∃ ops, VQEObs ham_dict 2 = some (Obs.many ops) ∧
      ops.flatten = ham_dict.tail ∧ ops.length = ham_dict.length - 1) := by
  have hget : ham_dict.get? 1 = some (ham_dict.get ⟨1, h2⟩) :=
    List.get?_eq_get (show 1 < ham_dict.length from h2)
  constructor
  · refine ⟨ham_dict.get ⟨1, h2⟩, hget, List.get?_mem hget, ?_⟩
    rw [VQEObs, ReadHamiltonian_eq, if_pos rfl, hget]
    rfl
  · refine ⟨(ham_dict.drop 1).map (fun t => [t]), ?_, ?_, ?_⟩
    · rw [VQEObs, ReadHamiltonian_eq, if_neg (by norm_num)]
    · rw [flatten_map_singleton, List.drop_one]
    · simp

/-- C2 witness: on a concrete two-term Hamiltonian, method 1 selects the term
at index 1 and method 2 selects every term but the first. -/
theorem VQEEnergy_observables_witness :
    2 ≤ ([("II", (2 : ℚ)), ("ZZ", 1)] : List PauliTerm).length ∧
    ((∃ t, ([("II", (2 : ℚ)), ("ZZ", 1)] : List PauliTerm).get? 1 = some t ∧
        t ∈ ([("II", (2 : ℚ)), ("ZZ", 1)] : List PauliTerm) ∧
        VQEObs [("II", (2 : ℚ)), ("ZZ", 1)] 1 = some (Obs.single [t])) ∧
      (∃ ops, VQEObs [("II", (2 : ℚ)), ("ZZ", 1)] 2 = some (Obs.many ops) ∧
        ops.flatten = ([("II", (2 : ℚ)), ("ZZ", 1)] : List PauliTerm).tail ∧
        ops.length = ([("II", (2 : ℚ)), ("ZZ", 1)] : List PauliTerm).length - 1)) :=
  ⟨by decide, VQEEnergy_observables [("II", (2 : ℚ)), ("ZZ", 1)] (by decide)⟩

/-- C2 counterexample: for method 2 the returned observable list is not the
list of all terms of the full Hamiltonian - the identity term `("II", 2)` is
missing. -/
theorem VQEEnergy_observables_counterexample :
    VQEObs [("II", (2 : ℚ)), ("ZI", 1), ("IZ", 3)] 2
      ≠ some (Obs.many (([("II", (2 : ℚ)), ("ZI", 1), ("IZ", 3)] : List PauliTerm).map
          (fun t => [t]))) := by decide

/-- C6: for `na ≤ norb/2` and `nb ≤ norb/2`, `HartreeFock(norb, na, nb)` is a
circuit on `norb` qubits whose gate list has no duplicates, contains an X gate
on qubit `q` exactly for `q` in `0 .. na-1` or in `norb/2 .. norb/2 + nb - 1`,
and contains nothing but X gates. -/
theorem HartreeFock_spec (norb na nb : ℕ) (ha : na ≤ norb / 2) (hb : nb ≤ norb / 2) :
    (HartreeFock norb na nb).num_qubits = norb ∧
    (HartreeFock norb na nb).gates.Nodup ∧
    (∀ q : ℤ, Instr.x q ∈ (HartreeFock norb na nb).gates ↔
      ((0 ≤ q ∧ q < (na : ℤ)) ∨
        (((norb / 2 : ℕ) : ℤ) ≤ q ∧ q < ((norb / 2 : ℕ) : ℤ) + (nb : ℤ)))) ∧
    (∀ g ∈ (HartreeFock norb na nb).gates, ∃ q : ℤ, g = Instr.x q) := by
  refine ⟨rfl, ?_, ?_, ?_⟩
  · refine List.Nodup.append ?_ ?_ ?_
    · refine List.Nodup.map ?_ (List.nodup_range na)
      intro a b hab
      simp only [Instr.x.injEq] at hab
      omega
    · refine List.Nodup.map ?_ (List.nodup_range nb)
      intro a b hab
      simp only [Instr.x.injEq] at hab
      omega
    · intro g hg1 hg2
      simp only [List.mem_map, List.mem_range] at hg1 hg2
      obtain ⟨ia, hia, rfl⟩ := hg1
      obtain ⟨ib, hib, hxeq⟩ := hg2
      simp only [Instr.x.injEq] at hxeq
      omega
  · intro q
    simp only [HartreeFock, List.mem_append, List.mem_map, List.mem_range,
      Instr.x.injEq]
    constructor
    · rintro (⟨ia, hia, hx⟩ | ⟨ib, hib, hx⟩)
      · left
        omega
      · right
        omega
    · rintro (⟨hq0, hqna⟩ | ⟨hql, hqr⟩)
      · exact Or.inl ⟨q.toNat, by omega, by omega⟩
      · exact Or.inr ⟨(q - ((norb / 2 : ℕ) : ℤ)).toNat, by omega, by omega⟩
  · intro g hg
    simp only [HartreeFock, List.mem_append, List.mem_map, List.mem_range] at hg
    rcases hg with ⟨ia, _, rfl⟩ | ⟨ib, _, rfl⟩
    · exact ⟨_, rfl⟩
    · exact ⟨_, rfl⟩

/-- C6 witness: the 4-qubit Hartree-Fock circuit with one alpha and one beta
electron satisfies the characterization. -/
theorem HartreeFock_spec_witness :
    1 ≤ 4 / 2 ∧
    ((HartreeFock 4 1 1).num_qubits = 4 ∧
      (HartreeFock 4 1 1).gates.Nodup ∧
      (∀ q : ℤ, Instr.x q ∈ (HartreeFock 4 1 1).gates ↔
        ((0 ≤ q ∧ q < (1 : ℤ)) ∨
          (((4 / 2 : ℕ) : ℤ) ≤ q ∧ q < ((4 / 2 : ℕ) : ℤ) + (1 : ℤ)))) ∧
      (∀ g ∈ (HartreeFock 4 1 1).gates, ∃ q : ℤ, g = Instr.x q)) :=
  ⟨by decide, HartreeFock_spec 4 1 1 (by decide) (by decide)⟩

/-- C4: whenever the grouped operator list is no longer than the excitation
list (otherwise the Python code raises an IndexError), the ansatz circuit built
by `VQEEnergy` is the Hartree-Fock circuit appended first over the whole
register, followed by exactly one cluster-operator circuit per grouped Pauli
operator in production order, each cluster circuit consisting of the single
first-order Lie-Trotter `PauliEvolutionGate` realizing exp(-i P) for its
grouped operator P. -/
theorem VQEEnergy_ansatz_structure (n na nb cid method : ℕ)
    (ansatz : List PauliTerm)
    (h : (readPauliExcitation ansatz).length ≤ (excitationList n na nb).length) :
    VQEEnergyCircuit n na nb cid method ansatz =
      some { num_qubits := n
             name := "vqe-ansatz(" ++ toString method ++ ") " ++ toString n
               ++ " " ++ toString cid
             gates := Instr.sub "Hf" n (HartreeFock n na nb).gates
                 ((List.range n).map (fun (i : ℕ) => (i : ℤ)))
               :: (readPauliExcitation ansatz).enum.map (fun ip =>
                    Instr.sub
                      ("Cluster Op " ++ tupleStr ((excitationList n na nb).getD ip.1 []))
                      (opNumQubits ip.2)
                      [Instr.pauliEvo ip.2 1 "LieTrotter"]
                      ((List.range (opNumQubits ip.2)).map (fun (i : ℕ) => (i : ℤ)))) } := by
  rw [VQEEnergyCircuit]
  simp only [if_pos h]
  congr 1
  congr 1
  simp only [ClusterOperatorCircuit, HartreeFock]
  rw [foldl_append_singleton
    (fun ip : ℕ × SPOp =>
      Instr.sub
        ("Cluster Op " ++ tupleStr ((excitationList n na nb).getD ip.1 []))
        (opNumQubits ip.2)
        [Instr.pauliEvo ip.2 1 "LieTrotter"]
        ((List.range (opNumQubits ip.2)).map (fun (i : ℕ) => (i : ℤ))))]
  rfl

/-- C4 witness: a concrete 4-qubit instance with a single-group ansatz. -/
theorem VQEEnergy_ansatz_structure_witness :
    (readPauliExcitation [("XXYY", (3 : ℚ))]).length
        ≤ (excitationList 4 1 1).length ∧
    VQEEnergyCircuit 4 1 1 0 1 [("XXYY", (3 : ℚ))] =
      some { num_qubits := 4
             name := "vqe-ansatz(" ++ toString 1 ++ ") " ++ toString 4
               ++ " " ++ toString 0
             gates := Instr.sub "Hf" 4 (HartreeFock 4 1 1).gates
                 ((List.range 4).map (fun (i : ℕ) => (i : ℤ)))
               :: (readPauliExcitation [("XXYY", (3 : ℚ))]).enum.map (fun ip =>
                    Instr.sub
                      ("Cluster Op " ++ tupleStr ((excitationList 4 1 1).getD ip.1 []))
                      (opNumQubits ip.2)
                      [Instr.pauliEvo ip.2 1 "LieTrotter"]
                      ((List.range (opNumQubits ip.2)).map (fun (i : ℕ) => (i : ℤ)))) } :=
  ⟨by decide, VQEEnergy_ansatz_structure 4 1 1 0 1 [("XXYY", (3 : ℚ))] (by decide)⟩

theorem basisRotation_fold (nqubit : ℕ) :
    ∀ (cs : List Char) (k : ℕ) (st : ECState),
      ((cs.enumFrom k).foldl (basisRotationStep nqubit) st).qcVar = st.qcVar ∧
      ((cs.enumFrom k).foldl (basisRotationStep nqubit) st).rawVar.num_qubits
        = st.rawVar.num_qubits ∧
      ((cs.enumFrom k).foldl (basisRotationStep nqubit) st).rawVar.name
        = st.rawVar.name ∧
      ((cs.enumFrom k).foldl (basisRotationStep nqubit) st).rawVar.gates
        = st.rawVar.gates
            ++ ((cs.enumFrom k).flatMap fun ip => rotFor nqubit ip.1 ip.2) ∧
      ((cs.enumFrom k).foldl (basisRotationStep nqubit) st).is_diag
        = (st.is_diag && cs.all fun c => !(c == 'X' || c == 'Y'))
  | [], k, st => by simp [List.enumFrom]
  | c :: cs, k, st => by
    have step : basisRotationStep nqubit st (k, c) =
        if c = 'X' then
          { st with is_diag := false
                    rawVar := { st.rawVar with gates :=
                      st.rawVar.gates ++ [Instr.h ((nqubit : ℤ) - k - 1)] } }
        else if c = 'Y' then
          { st with is_diag := false
                    rawVar := { st.rawVar with gates :=
                      st.rawVar.gates
                        ++ [Instr.sdg ((nqubit : ℤ) - k - 1),
                            Instr.h ((nqubit : ℤ) - k - 1)] } }
        else st := rfl
    have ih := basisRotation_fold nqubit cs (k + 1)
      (basisRotationStep nqubit st (k, c))
    simp only [List.enumFrom, List.foldl_cons, List.flatMap_cons, List.all_cons]
    by_cases hX : c = 'X'
    · rw [step, if_pos hX] at ih ⊢
      refine ⟨ih.1, ih.2.1, ih.2.2.1, ?_, ?_⟩
      · rw [ih.2.2.2.1]
        simp [rotFor, hX]
      · rw [ih.2.2.2.2]
        simp [hX]
    · by_cases hY : c = 'Y'
      · rw [step, if_neg hX, if_pos hY] at ih ⊢
        refine ⟨ih.1, ih.2.1, ih.2.2.1, ?_, ?_⟩
        · rw [ih.2.2.2.1]
          simp [rotFor, hX, hY]
        · rw [ih.2.2.2.2]
          simp [hY]
      · rw [step, if_neg hX, if_neg hY] at ih ⊢
        refine ⟨ih.1, ih.2.1, ih.2.2.1, ?_, ?_⟩
        · rw [ih.2.2.2.1]
          simp [rotFor, hX, hY]
        · rw [ih.2.2.2.2]
          have hbX : (c == 'X') = false := by simp [hX]
          have hbY : (c == 'Y') = false := by simp [hY]
          simp [hbX, hbY]

/-- C5: the measured circuit returned by `ExpectationCircuit` extends the
input circuit's gates with, per enumerated character of the Pauli string, an H
gate on qubit `nqubit - i - 1` for `X`, Sdg then H on that qubit for `Y` and
nothing for any other character (in particular `Z` and `I`), followed by a
measurement of all qubits; the returned `is_diag` flag is true iff the string
contains neither `X` nor `Y`. -/
theorem ExpectationCircuit_spec (qc : Circuit) (pauli : PauliTerm) (nqubit : ℕ) :
    (ExpectationCircuit qc pauli nqubit).2.1.gates
      = qc.gates ++ (pauli.1.toList.enum.flatMap fun ip => rotFor nqubit ip.1 ip.2)
          ++ measureAllGates qc.num_qubits ∧
    ((ExpectationCircuit qc pauli nqubit).2.2 = true ↔
      ∀ c ∈ pauli.1.toList, c ≠ 'X' ∧ c ≠ 'Y') := by
  have hfold := basisRotation_fold nqubit pauli.1.toList 0
    { qcVar := qc, rawVar := qc, is_diag := true }
  rw [ExpectationCircuit]
  simp only [List.enum] at *
  constructor
  · simp only [hfold.2.2.2.1, hfold.2.1, List.append_assoc]
  · rw [hfold.2.2.2.2]
    simp [List.all_eq_true, not_or]

/-- C9: `ExpectationCircuit` does not modify the circuit it is given: the
final value of the caller's circuit variable equals its initial value, since
all gates, measurements and the renaming are applied to the copy only. -/
theorem ExpectationCircuit_frame (qc : Circuit) (pauli : PauliTerm) (nqubit : ℕ) :
    (ExpectationCircuit qc pauli nqubit).1 = qc := by
  have hfold := basisRotation_fold nqubit pauli.1.toList 0
    { qcVar := qc, rawVar := qc, is_diag := true }
  rw [ExpectationCircuit]
  simp only [List.enum] at *
  exact hfold.1

theorem analyzeMethod2Loop_eq_sum (arf : ℚ → ℚ → ℚ → ℚ → ℚ)
    (references : String → RefEntry) (expval : List ℚ) (qubit_op : SPOp) :
    analyzeMethod2Loop arf references expval qubit_op
      = ((expval.zip qubit_op).map fun vp =>
          arf vp.1 (references vp.2.1).exactVal (references vp.2.1).minVal
            (references vp.2.1).maxVal).sum := by
  rw [analyzeMethod2Loop, foldl_add_map
    (fun vp : ℚ × PauliTerm =>
      arf vp.1 (references vp.2.1).exactVal (references vp.2.1).minVal
        (references vp.2.1).maxVal)]
  simp

theorem analyze_method1_eq (arf1 : List ℚ → ℚ → ℚ → ℚ → ℚ)
    (arf : ℚ → ℚ → ℚ → ℚ → ℚ) (references : String → RefEntry)
    (md : QCMetadata) (num_qubits : ℕ) (expval : List ℚ) (m1 : M1Data)
    (hm : md.method1 = some m1) :
    analyze_and_print_result arf1 arf references md num_qubits expval
      = Except.ok (arf1 expval
          (references ("Qubits - " ++ toString num_qubits ++ " - "
            ++ toString m1.circuit_id)).exactVal
          (references ("Qubits - " ++ toString num_qubits ++ " - "
            ++ toString m1.circuit_id)).minVal
          (references ("Qubits - " ++ toString num_qubits ++ " - "
            ++ toString m1.circuit_id)).maxVal) := by
  rw [analyze_and_print_result, hm]

theorem analyze_method2_eq (arf1 : List ℚ → ℚ → ℚ → ℚ → ℚ)
    (arf : ℚ → ℚ → ℚ → ℚ → ℚ) (references : String → RefEntry)
    (md : QCMetadata) (num_qubits : ℕ) (expval : List ℚ) (qubit_op : SPOp)
    (hm1 : md.method1 = none) (hm2 : md.method2 = some qubit_op) :
    analyze_and_print_result arf1 arf references md num_qubits expval
      = Except.ok (((expval.zip qubit_op).map fun vp =>
            arf vp.1 (references vp.2.1).exactVal (references vp.2.1).minVal
              (references vp.2.1).maxVal).sum / (qubit_op.length : ℚ)) := by
  rcases md with ⟨md1, md2⟩
  simp only at hm1 hm2
  subst hm1
  subst hm2
  show Except.ok (analyzeMethod2Loop arf references expval qubit_op
    / (qubit_op.length : ℚ)) = _
  rw [analyzeMethod2Loop_eq_sum]

/-- C3: for a method-2 result (metadata stores the qubit operator under
`"method2"`), with one expectation value per stored term, the returned
fidelity is the sum of the per-term fidelities - each obtained by applying the
accuracy-ratio scoring function to the term's expectation value and that
term's reference exact, min and max values - divided by the number of terms of
the stored qubit operator. -/
theorem analyze_method2_normalized_fidelity (arf1 : List ℚ → ℚ → ℚ → ℚ → ℚ)
    (arf : ℚ → ℚ → ℚ → ℚ → ℚ) (references : String → RefEntry)
    (num_qubits : ℕ) (expval : List ℚ) (qubit_op : SPOp)
    (hlen : expval.length = qubit_op.length) (hne : qubit_op ≠ []) :
    analyze_and_print_result arf1 arf references ⟨none, some qubit_op⟩
        num_qubits expval
      = Except.ok (((expval.zip qubit_op).map fun vp =>
            arf vp.1 (references vp.2.1).exactVal (references vp.2.1).minVal
              (references vp.2.1).maxVal).sum / (qubit_op.length : ℚ)) :=
  analyze_method2_eq arf1 arf references ⟨none, some qubit_op⟩ num_qubits expval
    qubit_op rfl rfl

/-- C3 witness: a concrete two-term method-2 evaluation. -/
theorem analyze_method2_normalized_fidelity_witness :
    ([(3 : ℚ), 5] : List ℚ).length = ([("ZZ", (1 : ℚ)), ("XX", 2)] : SPOp).length ∧
    ([("ZZ", (1 : ℚ)), ("XX", 2)] : SPOp) ≠ [] ∧
    analyze_and_print_result (fun _ _ _ _ => 0) (fun v e mn mx => v + e + mn + mx)
        (fun _ => ⟨1, 0, 2⟩) ⟨none, some [("ZZ", (1 : ℚ)), ("XX", 2)]⟩ 2 [(3 : ℚ), 5]
      = Except.ok (((([(3 : ℚ), 5] : List ℚ).zip
            ([("ZZ", (1 : ℚ)), ("XX", 2)] : SPOp)).map fun vp =>
            (fun v e mn mx => v + e + mn + mx) vp.1
              ((fun _ : String => (⟨1, 0, 2⟩ : RefEntry)) vp.2.1).exactVal
              ((fun _ : String => (⟨1, 0, 2⟩ : RefEntry)) vp.2.1).minVal
              ((fun _ : String => (⟨1, 0, 2⟩ : RefEntry)) vp.2.1).maxVal).sum
          / (([("ZZ", (1 : ℚ)), ("XX", 2)] : SPOp).length : ℚ)) :=
  ⟨by decide, by decide,
    analyze_method2_normalized_fidelity (fun _ _ _ _ => 0)
      (fun v e mn mx => v + e + mn + mx) (fun _ => ⟨1, 0, 2⟩) 2 [(3 : ℚ), 5]
      [("ZZ", (1 : ℚ)), ("XX", 2)] (by decide) (by decide)⟩

/-- C10: `analyze_and_print_result` raises the RuntimeError exactly when the
metadata has neither a `"method1"` nor a `"method2"` entry; when `"method1"`
is present the method-1 scoring path is taken, and otherwise (with
`"method2"` present) the method-2 scoring path is taken. -/
theorem analyze_error_spec (arf1 : List ℚ → ℚ → ℚ → ℚ → ℚ)
    (arf : ℚ → ℚ → ℚ → ℚ → ℚ) (references : String → RefEntry)
    (md : QCMetadata) (num_qubits : ℕ) (expval : List ℚ) :
    (analyze_and_print_result arf1 arf references md num_qubits expval
        = Except.error "Either method 1 or 2 should be chosen"
      ↔ md.method1 = none ∧ md.method2 = none) ∧
    (∀ m1, md.method1 = some m1 →
      analyze_and_print_result arf1 arf references md num_qubits expval
        = Except.ok (arf1 expval
            (references ("Qubits - " ++ toString num_qubits ++ " - "
              ++ toString m1.circuit_id)).exactVal
            (references ("Qubits - " ++ toString num_qubits ++ " - "
              ++ toString m1.circuit_id)).minVal
            (references ("Qubits - " ++ toString num_qubits ++ " - "
              ++ toString m1.circuit_id)).maxVal)) ∧
    (∀ qubit_op, md.method1 = none → md.method2 = some qubit_op →
      analyze_and_print_result arf1 arf references md num_qubits expval
        = Except.ok (((expval.zip qubit_op).map fun vp =>
              arf vp.1 (references vp.2.1).exactVal (references vp.2.1).minVal
                (references vp.2.1).maxVal).sum / (qubit_op.length : ℚ))) := by
  refine ⟨?_, ?_, ?_⟩
  · constructor
    · intro herr
      rcases hm1 : md.method1 with _ | m1
      · rcases hm2 : md.method2 with _ | op
        · exact ⟨rfl, rfl⟩
        · rw [analyze_method2_eq arf1 arf references md num_qubits expval op hm1 hm2]
            at herr
          exact absurd herr (by simp)
      · rw [analyze_method1_eq arf1 arf references md num_qubits expval m1 hm1] at herr
        exact absurd herr (by simp)
    · rintro ⟨hm1, hm2⟩
      rw [analyze_and_print_result, hm1, hm2]
  · intro m1 hm1
    exact analyze_method1_eq arf1 arf references md num_qubits expval m1 hm1
  · intro op hm1 hm2
    exact analyze_method2_eq arf1 arf references md num_qubits expval op hm1 hm2

/-- C10 witness: with empty metadata the RuntimeError is raised. -/
theorem analyze_error_spec_witness :
    analyze_and_print_result (fun _ _ _ _ => 0) (fun _ _ _ _ => 0)
        (fun _ => ⟨0, 0, 0⟩) ⟨none, none⟩ 4 []
      = Except.error "Either method 1 or 2 should be chosen" :=
  (analyze_error_spec (fun _ _ _ _ => 0) (fun _ _ _ _ => 0)
    (fun _ => ⟨0, 0, 0⟩) ⟨none, none⟩ 4 []).1.mpr ⟨rfl, rfl⟩

/-- C7: `execution_handler` scores the expectation values against the
reference file selected by the circuit's qubit count and method, and stores
the resulting fidelity under the metric name `"fidelity"` keyed by that qubit
count - under the circuit id for method 1 and under `"method2"` for
method 2. -/
theorem execution_handler_spec (arf1 : List ℚ → ℚ → ℚ → ℚ → ℚ)
    (arf : ℚ → ℚ → ℚ → ℚ → ℚ) (refFile : ℕ → ℕ → String → RefEntry)
    (md : QCMetadata) (num_qubits : ℕ) (expval : List ℚ) :
    (∀ m1, md.method1 = some m1 →
      execution_handler arf1 arf refFile md num_qubits expval
        = Except.ok ⟨num_qubits, toString m1.circuit_id, "fidelity",
            arf1 expval
              (refFile num_qubits 1 ("Qubits - " ++ toString num_qubits ++ " - "
                ++ toString m1.circuit_id)).exactVal
              (refFile num_qubits 1 ("Qubits - " ++ toString num_qubits ++ " - "
                ++ toString m1.circuit_id)).minVal
              (refFile num_qubits 1 ("Qubits - " ++ toString num_qubits ++ " - "
                ++ toString m1.circuit_id)).maxVal⟩) ∧
    (∀ qubit_op, md.method1 = none → md.method2 = some qubit_op →
      execution_handler arf1 arf refFile md num_qubits expval
        = Except.ok ⟨num_qubits, "method2", "fidelity",
            ((expval.zip qubit_op).map fun vp =>
              arf vp.1 (refFile num_qubits 2 vp.2.1).exactVal
                (refFile num_qubits 2 vp.2.1).minVal
                (refFile num_qubits 2 vp.2.1).maxVal).sum
              / (qubit_op.length : ℚ)⟩) := by
  constructor
  · intro m1 hm1
    rcases md with ⟨md1, md2⟩
    simp only at hm1
    subst hm1
    rw [execution_handler,
      analyze_method1_eq arf1 arf (refFile num_qubits 1) ⟨some m1, md2⟩
        num_qubits expval m1 rfl]
    rfl
  · intro op hm1 hm2
    rcases md with ⟨md1, md2⟩
    simp only at hm1 hm2
    subst hm1
    subst hm2
    rw [execution_handler,
      analyze_method2_eq arf1 arf (refFile num_qubits 2) ⟨none, some op⟩
        num_qubits expval op rfl rfl]
    rfl

/-- C7 witness: a concrete method-1 circuit with circuit id 2 is stored under
group 4 and key "2". -/
theorem execution_handler_spec_witness :
    execution_handler (fun _ e _ _ => e) (fun _ _ _ _ => 0)
        (fun _ _ _ => ⟨7, 0, 9⟩) ⟨some ⟨"ZZZZ", 1, 2⟩, none⟩ 4 [(1 : ℚ)]
      = Except.ok ⟨4, toString (2 : ℕ), "fidelity",
          (fun (_ : List ℚ) (e _ _ : ℚ) => e) [(1 : ℚ)]
            ((fun (_ _ : ℕ) (_ : String) => (⟨7, 0, 9⟩ : RefEntry)) 4 1
              ("Qubits - " ++ toString 4 ++ " - " ++ toString (2 : ℕ))).exactVal
            ((fun (_ _ : ℕ) (_ : String) => (⟨7, 0, 9⟩ : RefEntry)) 4 1
              ("Qubits - " ++ toString 4 ++ " - " ++ toString (2 : ℕ))).minVal
            ((fun (_ _ : ℕ) (_ : String) => (⟨7, 0, 9⟩ : RefEntry)) 4 1
              ("Qubits - " ++ toString 4 ++ " - " ++ toString (2 : ℕ))).maxVal⟩ :=
  (execution_handler_spec (fun _ e _ _ => e) (fun _ _ _ _ => 0)
      (fun _ _ _ => ⟨7, 0, 9⟩) ⟨some ⟨"ZZZZ", 1, 2⟩, none⟩ 4 [(1 : ℚ)]).1
    ⟨"ZZZZ", 1, 2⟩ rfl

theorem runValidate_char (m0 M0 s0 : ℤ) :
    runValidate m0 M0 s0 =
      if min (max M0 m0) 12 < 4 then none
      else some (if (min (max 4 m0) (min (max M0 m0) 12)) % 2 = 1
                   then min (max 4 m0) (min (max M0 m0) 12) + 1
                   else min (max 4 m0) (min (max M0 m0) 12),
                 min (max M0 m0) 12, max 1 s0) := rfl

/-- C8 (amended): whenever `run` is not aborted early, the validated
parameters satisfy `4 ≤ min_qubits`, `min_qubits` even, `max_qubits ≤ 12` and
`min_qubits ≤ max_qubits + 1` (the parity bump can push `min_qubits` one past
an odd `max_qubits`, making the loop empty); the loop bounds do not depend on
the `skip_qubits` argument, and the loop visits exactly the sizes
`min_qubits, min_qubits + 2, ...` up to `max_qubits`, in steps of exactly 2. -/
theorem run_validation_invariant (m0 M0 s0 m M s : ℤ)
    (h : runValidate m0 M0 s0 = some (m, M, s)) :
    (4 ≤ m ∧ m % 2 = 0 ∧ M ≤ 12 ∧ m ≤ M + 1) ∧
    (∀ s0' : ℤ, runValidate m0 M0 s0' = some (m, M, max 1 s0')) ∧
    (∀ x : ℤ, x ∈ benchSizes m M ↔ (m ≤ x ∧ x ≤ M ∧ (x - m) % 2 = 0)) ∧
    (∀ i : ℕ, ∀ x : ℤ, (benchSizes m M).get? i = some x → x = m + 2 * (i : ℤ)) := by
  rw [runValidate_char] at h
  by_cases habort : min (max M0 m0) 12 < 4
  · rw [if_pos habort] at h
    exact absurd h (by simp)
  · rw [if_neg habort] at h
    simp only [Option.some.injEq, Prod.mk.injEq] at h
    obtain ⟨hm, hM, hs⟩ := h
    have hbound : 4 ≤ m ∧ m % 2 = 0 ∧ M ≤ 12 ∧ m ≤ M + 1 := by
      split_ifs at hm with hpar <;> omega
    refine ⟨hbound, ?_, ?_, ?_⟩
    · intro s0'
      rw [runValidate_char, if_neg habort]
      simp only [Option.some.injEq, Prod.mk.injEq]
      exact ⟨hm, hM, by trivial⟩
    · intro x
      constructor
      · intro hx
        simp only [benchSizes, List.mem_map, List.mem_range] at hx
        obtain ⟨k, hk, rfl⟩ := hx
        constructor
        · omega
        constructor
        · omega
        · omega
      · rintro ⟨h1, h2, h3⟩
        simp only [benchSizes, List.mem_map, List.mem_range]
        exact ⟨((x - m) / 2).toNat, by omega, by omega⟩
    · intro i x hget
      simp only [benchSizes, List.get?_eq_getElem?, List.getElem?_map] at hget
      by_cases hi : i < ((M + 1 - m).toNat + 1) / 2
      · rw [List.getElem?_range hi] at hget
        simp only [Option.map_some', Option.some.injEq] at hget
        exact hget.symm
      · rw [List.getElem?_eq_none (by simpa using not_lt.1 hi)] at hget
        exact absurd hget (by simp)

/-- C8 witness: `run(4, 9, 3)` validates to `(4, 9, 3)` and satisfies the
amended invariant. -/
theorem run_validation_invariant_witness :
    runValidate 4 9 3 = some (4, 9, 3) ∧
    (((4 : ℤ) ≤ 4 ∧ (4 : ℤ) % 2 = 0 ∧ (9 : ℤ) ≤ 12 ∧ (4 : ℤ) ≤ 9 + 1) ∧
      (∀ s0' : ℤ, runValidate 4 9 s0' = some (4, 9, max 1 s0')) ∧
      (∀ x : ℤ, x ∈ benchSizes 4 9 ↔ ((4 : ℤ) ≤ x ∧ x ≤ 9 ∧ (x - 4) % 2 = 0)) ∧
      (∀ i : ℕ, ∀ x : ℤ, (benchSizes 4 9).get? i = some x → x = 4 + 2 * (i : ℤ))) :=
  ⟨by decide, run_validation_invariant 4 9 3 4 9 3 (by decide)⟩

/-- C8 counterexample: with `min_qubits = max_qubits = 5` the run is not
aborted, yet the validated parameters have `min_qubits = 6 > max_qubits = 5`,
refuting the claimed invariant `min_qubits ≤ max_qubits`. -/
theorem run_validation_counterexample :
    runValidate 5 5 1 = some (6, 5, 1) ∧ ¬ ((6 : ℤ) ≤ 5) :=
  ⟨by decide, by decide⟩

end VQEBench
